import Mathlib

/-!
Verification of the minimal cooperative executor in
`src/fuck-rust-day-by-day/src/_2026_02_01_fuck.rs` (module `executor_practice`).

The module builds, from first principles:
* `TaskQueue` — a mutex-guarded FIFO (`VecDeque<Arc<Task>>`) with `push` /
  `pop` (source lines 46–62);
* a hand-rolled `Waker` vtable (`clone_fn`, `wake_fn`, `wake_by_ref_fn`,
  `drop_fn`, lines 111–166) that manipulates the `Arc<Task>` strong count
  through raw pointers;
* `SimpleExecutor` with `spawn` and the `run` loop (lines 183–244);
* a `CountDown` test future (lines 251–283).

The embedding is split in two layers.

Layer one (scheduling): a task's future is a state of some type `σ`
together with a step function `p : σ → σ × Poll × Nat` giving the next
state, the `Poll` result, and the number of times the future invoked its
waker during that `poll` call (every such invocation pushes the task's own
id at the tail of the queue, which is exactly what `wake_fn` /
`wake_by_ref_fn` do with the queue; the single-threaded run loop interleaves
nothing else between those pushes).  The executor state is a map from task
ids to future states plus the queue of ready task ids; `SimpleExecutor.run`
is the source's `run` loop, driven by fuel because the Rust loop has no
syntactic bound — each theorem that needs termination supplies enough fuel
and additionally shows the loop exited by observing an empty queue.

Layer two (reference counting): `ArcLedger` tracks, for one chosen task,
the `Arc<Task>` strong count together with where every share lives (queue
entries, raw waker aliases, local `Arc` variables), and the four vtable
functions plus the executor-side operations are translated step by step as
ledger moves.  Mutex acquisition is modelled as the identity: the embedding
is single-threaded, matching the executor's single consumer loop.
-/

/-- Poll outcome of one step of a future: the source's `std::task::Poll`
specialised to `Output = ()`, so `Poll::Ready(())` is `ready` and
`Poll::Pending` is `pending`. -/
inductive Poll : Type
  | ready : Poll
  | pending : Poll
deriving DecidableEq, Repr

/-- TaskQueue `push` (source line 54): append at the tail of the
`VecDeque` (`push_back` under the mutex; the embedding is single-threaded,
so taking the lock is the identity). -/
def TaskQueue.push {α : Type} (q : List α) (x : α) : List α := q ++ [x]

/-- TaskQueue `pop` (source line 59): `pop_front` under the mutex,
returning the head element and the remaining queue, or `none` when the
queue is empty. -/
def TaskQueue.pop {α : Type} : List α → Option (α × List α)
  | [] => none
  | x :: xs => some (x, xs)

/-- SimpleExecutor `run` (source lines 216–243).  `tasks` maps a task id to
the state of its future (the source queue holds `Arc<Task>`; ids name the
same shared cells, and `spawn`ing computations `c₀ … c_{k-1}` corresponds to
`tasks i = cᵢ` with initial queue `[0, …, k-1]`).  One loop iteration pops a
task id, polls its future, stores the new future state, and appends one copy
of the id at the tail of the queue per waker invocation the future made
during the call (each invocation is a `TaskQueue.push` of the own task); the
executor itself enqueues nothing and, on `Ready` as on `Pending`, performs no
further action (source lines 231–241).  The result is the event trace
(task id, future state observed by `poll`, poll result), the final future
states, and the queue left over when fuel ran out — empty iff the loop
exited by observing an empty queue, i.e. iff the Rust `run` returned. -/
def SimpleExecutor.run {σ : Type} (p : σ → σ × Poll × Nat) :
    Nat → (Nat → σ) → List Nat → List (Nat × σ × Poll) × (Nat → σ) × List Nat
  | 0, tasks, queue => ([], tasks, queue)
  | fuel + 1, tasks, queue =>
    match TaskQueue.pop queue with
    | none => ([], tasks, [])
    | some (tid, rest) =>
      let s := tasks tid
      let r := p s
      let next := SimpleExecutor.run p fuel (Function.update tasks tid r.1)
        (rest ++ List.replicate r.2.2 tid)
      ((tid, s, r.2.1) :: next.1, next.2)

/-- CountDown `poll` (source lines 268–279).  The future's state is its
`remaining` field (`name` only feeds `println!` and has no behavioural
effect).  With `remaining == 0` it returns `Ready` without touching the
waker; otherwise it decrements `remaining` (a `u32` that is nonzero here, so
`Nat` subtraction is exact), calls `wake_by_ref` exactly once — one push of
its own task id — and returns `Pending`. -/
def CountDown.poll (remaining : Nat) : Nat × Poll × Nat :=
  if remaining = 0 then (0, Poll.ready, 0) else (remaining - 1, Poll.pending, 1)

/-- Number of events of a trace in which the given task's poll returned
`Ready`. -/
def readyCount {σ : Type} (tid : Nat) : List (Nat × σ × Poll) → Nat
  | [] => 0
  | e :: es => (if e.1 = tid ∧ e.2.2 = Poll.ready then 1 else 0) + readyCount tid es

/-- Number of events of a trace belonging to the given task, i.e. how often
the run loop polled it. -/
def pollCount {σ : Type} (tid : Nat) : List (Nat × σ × Poll) → Nat
  | [] => 0
  | e :: es => (if e.1 = tid then 1 else 0) + pollCount tid es

/-- Client-visible operations on the task queue: pushing a task reference
or popping one (source `spawn`, the `wake` functions, and the run loop are
the only callers). -/
inductive QueueOp (α : Type) : Type
  | push : α → QueueOp α
  | pop : QueueOp α

/-- Interpretation of a sequence of queue operations, started on `init`:
returns the list of elements the pops produced, in order, and the final
queue contents.  A pop on an empty queue observes "empty" and produces
nothing. -/
def TaskQueue.runOps {α : Type} : List (QueueOp α) → List α → List α × List α
  | [], q => ([], q)
  | QueueOp.push x :: ops, q => TaskQueue.runOps ops (TaskQueue.push q x)
  | QueueOp.pop :: ops, q =>
    match TaskQueue.pop q with
    | none => TaskQueue.runOps ops q
    | some (x, q') =>
      let r := TaskQueue.runOps ops q'
      (x :: r.1, r.2)

/-- Values pushed by a sequence of queue operations, in order. -/
def pushedOf {α : Type} : List (QueueOp α) → List α
  | [] => []
  | QueueOp.push x :: ops => x :: pushedOf ops
  | QueueOp.pop :: ops => pushedOf ops

/-- Small-step relation of the run loop: one iteration of the source's
`run` (pop the head task, poll its future, store the new state, append the
future's own wake pushes at the tail), given as a relation so that
determinism of the loop is a statement and not a tautology of the
functional embedding. -/
inductive ExecStep {σ : Type} (p : σ → σ × Poll × Nat) :
    (Nat → σ) × List Nat → Nat × σ × Poll → (Nat → σ) × List Nat → Prop
  | mk (tasks : Nat → σ) (tid : Nat) (rest : List Nat) :
      ExecStep p (tasks, tid :: rest) (tid, tasks tid, (p (tasks tid)).2.1)
        (Function.update tasks tid (p (tasks tid)).1,
         rest ++ List.replicate (p (tasks tid)).2.2 tid)

/-- Complete run of the loop as a relation: iterate `ExecStep` until a pop
observes the queue empty, collecting the event trace. -/
inductive ExecRun {σ : Type} (p : σ → σ × Poll × Nat) :
    (Nat → σ) × List Nat → List (Nat × σ × Poll) → (Nat → σ) × List Nat → Prop
  | done (tasks : Nat → σ) : ExecRun p (tasks, []) [] (tasks, [])
  | step {c c' c'' : (Nat → σ) × List Nat} {e : Nat × σ × Poll}
      {tr : List (Nat × σ × Poll)} :
      ExecStep p c e c' → ExecRun p c' tr c'' → ExecRun p c (e :: tr) c''

/-- Future modelling the §4.4 duplicate-queuing edge case: its first poll
invokes `wake_by_ref` twice before returning `Pending`, so its task id is
pushed twice and appears twice in the queue; every later poll returns
`Ready` with no wake.  The state counts the polls received so far. -/
def doubleWake.poll : Nat → Nat × Poll × Nat
  | 0 => (1, Poll.pending, 2)
  | n + 1 => (n + 2, Poll.ready, 0)

/-- Future that returns `Pending` without ever invoking its waker: its
total number of wake invocations over its whole lifetime is zero, which is
bounded, yet it never completes. -/
def neverWake.poll : Unit → Unit × Poll × Nat := fun _ => ((), Poll.pending, 0)

/-- Fuel bound for the run loop: each queue entry costs its own pop plus at
most `μ` of its task's current future state further iterations, where `μ`
is a bound on how often the future can still return `Pending`. -/
def queueMeasure {σ : Type} (μ : σ → Nat) (tasks : Nat → σ) (queue : List Nat) : Nat :=
  (queue.map (fun tid => μ (tasks tid) + 1)).sum

/-- Ledger of the strong reference count of one chosen task's `Arc<Task>`,
together with where every counted share currently lives: entries of the
shared `TaskQueue` (projected to whether an entry references this task, in
order, so that the queue's other entries stay visible), live raw-waker
aliases (`RawWaker`/`Waker` values holding the pointer produced by
`Arc::into_raw`), and executor-local `Arc<Task>` variables.  The vtable
functions of source lines 111–166 and the executor-side operations are
translated below as moves on this ledger. -/
structure ArcLedger : Type where
  rc : Nat
  handles : Nat
  locals : Nat
  queue : List Bool
deriving DecidableEq, Repr

/-- Reference-count pairing: the strong count equals the number of
outstanding shares — queue entries referencing the task, live waker
aliases, and local strong references. -/
def ArcLedger.inv (s : ArcLedger) : Prop :=
  s.rc = s.queue.count true + s.handles + s.locals

instance (s : ArcLedger) : Decidable s.inv :=
  inferInstanceAs (Decidable (s.rc = s.queue.count true + s.handles + s.locals))

/-- clone_fn (source lines 111–124).  Requires a live alias (the `unsafe`
contract of `RawWakerVTable`: the pointer owns a count share); the
embedding returns `none` when that precondition is violated.  Steps:
`Arc::from_raw` turns the alias's implicit share into a local `Arc` (count
unchanged); `arc.clone()` increments the count; `mem::forget(arc)` gives
the borrowed share back to the original alias; `Arc::into_raw(cloned)`
turns the cloned local into the new alias.  Net: count `+1`, one more
alias, queue untouched. -/
def clone_fn (s : ArcLedger) : Option ArcLedger :=
  if s.handles = 0 then none else
  let s1 : ArcLedger := { s with handles := s.handles - 1, locals := s.locals + 1 }
  let s2 : ArcLedger := { s1 with rc := s1.rc + 1, locals := s1.locals + 1 }
  let s3 : ArcLedger := { s2 with locals := s2.locals - 1, handles := s2.handles + 1 }
  some { s3 with locals := s3.locals - 1, handles := s3.handles + 1 }

/-- wake_fn (source lines 130–141), the consuming wake.  `Arc::from_raw`
takes over the alias's share as a local `Arc`; `arc.queue.push(arc.clone())`
increments the count and appends the clone at the tail of the task queue;
the local `arc` is dropped at end of scope, decrementing the count. -/
def wake_fn (s : ArcLedger) : Option ArcLedger :=
  if s.handles = 0 then none else
  let s1 : ArcLedger := { s with handles := s.handles - 1, locals := s.locals + 1 }
  let s2 : ArcLedger := { s1 with rc := s1.rc + 1, queue := TaskQueue.push s1.queue true }
  some { s2 with rc := s2.rc - 1, locals := s2.locals - 1 }

/-- wake_by_ref_fn (source lines 147–157), the non-consuming wake.  Same as
`wake_fn` except that the reconstructed local `Arc` is `mem::forget`ten at
the end instead of dropped: its share returns to the alias, which stays
usable. -/
def wake_by_ref_fn (s : ArcLedger) : Option ArcLedger :=
  if s.handles = 0 then none else
  let s1 : ArcLedger := { s with handles := s.handles - 1, locals := s.locals + 1 }
  let s2 : ArcLedger := { s1 with rc := s1.rc + 1, queue := TaskQueue.push s1.queue true }
  some { s2 with locals := s2.locals - 1, handles := s2.handles + 1 }

/-- drop_fn (source lines 162–166): `Arc::from_raw` reclaims the alias's
share as a local `Arc` which is dropped at once, decrementing the count. -/
def drop_fn (s : ArcLedger) : Option ArcLedger :=
  if s.handles = 0 then none else
  let s1 : ArcLedger := { s with handles := s.handles - 1, locals := s.locals + 1 }
  some { s1 with rc := s1.rc - 1, locals := s1.locals - 1 }

/-- Executor-side `self.queue.pop()` (run loop line 218): the head entry
leaves the queue; when it references this task its share becomes the
executor-local `task` variable, otherwise this task's ledger only sees the
entry disappear. -/
def ArcLedger.popTask (s : ArcLedger) : Option ArcLedger :=
  match s.queue with
  | [] => none
  | b :: rest =>
    if b then some { s with queue := rest, locals := s.locals + 1 }
    else some { s with queue := rest }

/-- Executor-side `task.clone()` (run loop line 221): clone a local
`Arc<Task>`, incrementing the count. -/
def ArcLedger.cloneLocal (s : ArcLedger) : Option ArcLedger :=
  if s.locals = 0 then none else
  some { s with rc := s.rc + 1, locals := s.locals + 1 }

/-- create_waker (source lines 83–97): `Arc::into_raw` converts a local
`Arc<Task>` into the raw alias stored in the new `Waker`, without touching
the count. -/
def create_waker (s : ArcLedger) : Option ArcLedger :=
  if s.locals = 0 then none else
  some { s with locals := s.locals - 1, handles := s.handles + 1 }

/-- End-of-scope drop of an executor-local `Arc<Task>` (the `task` variable
at the end of a run-loop iteration, or a `Ready` task's last reference):
count decrements by the share the local held. -/
def ArcLedger.dropLocal (s : ArcLedger) : Option ArcLedger :=
  if s.locals = 0 then none else
  some { s with rc := s.rc - 1, locals := s.locals - 1 }

/-- A push of some other task's reference onto the shared queue: this
task's ledger only sees a non-referencing entry appended at the tail. -/
def ArcLedger.pushOther (s : ArcLedger) : Option ArcLedger :=
  some { s with queue := TaskQueue.push s.queue false }

/-- Every operation of the source that touches an `Arc<Task>` share of the
chosen task: the four vtable entries plus the executor-side moves. -/
inductive ArcOp : Type
  | clone : ArcOp
  | wake : ArcOp
  | wakeByRef : ArcOp
  | dropHandle : ArcOp
  | popTask : ArcOp
  | cloneLocal : ArcOp
  | createWaker : ArcOp
  | dropLocal : ArcOp
  | pushOther : ArcOp
deriving DecidableEq, Repr

/-- Dispatch an operation to its ledger semantics. -/
def ArcOp.apply : ArcOp → ArcLedger → Option ArcLedger
  | ArcOp.clone => clone_fn
  | ArcOp.wake => wake_fn
  | ArcOp.wakeByRef => wake_by_ref_fn
  | ArcOp.dropHandle => drop_fn
  | ArcOp.popTask => ArcLedger.popTask
  | ArcOp.cloneLocal => ArcLedger.cloneLocal
  | ArcOp.createWaker => create_waker
  | ArcOp.dropLocal => ArcLedger.dropLocal
  | ArcOp.pushOther => ArcLedger.pushOther

/-- Apply a sequence of operations, collecting every intermediate ledger
state; `none` as soon as one operation's precondition fails. -/
def ArcLedger.runOps : List ArcOp → ArcLedger → Option (List ArcLedger)
  | [], _ => some []
  | op :: ops, s =>
    match ArcOp.apply op s with
    | none => none
    | some s1 =>
      match ArcLedger.runOps ops s1 with
      | none => none
      | some l => some (s1 :: l)

/-- Number of destruction events along a chain of ledger states: adjacent
pairs where the strong count drops from nonzero to zero — the moment `Arc`
frees the task. -/
def destroyCount : List ArcLedger → Nat
  | a :: b :: rest => (if a.rc ≠ 0 ∧ b.rc = 0 then 1 else 0) + destroyCount (b :: rest)
  | _ => 0

/-- Popping an empty queue ends the run loop at once, with no events. -/
theorem SimpleExecutor.run_nil {σ : Type} (p : σ → σ × Poll × Nat)
    (fuel : Nat) (tasks : Nat → σ) :
    SimpleExecutor.run p fuel tasks [] = ([], tasks, []) := by
  cases fuel <;> rfl

/-- Unfolding of one iteration of the run loop on a non-empty queue. -/
theorem SimpleExecutor.run_cons {σ : Type} (p : σ → σ × Poll × Nat)
    (fuel : Nat) (tasks : Nat → σ) (tid : Nat) (rest : List Nat) :
    SimpleExecutor.run p (fuel + 1) tasks (tid :: rest) =
      ((tid, tasks tid, (p (tasks tid)).2.1) ::
        (SimpleExecutor.run p fuel (Function.update tasks tid (p (tasks tid)).1)
          (rest ++ List.replicate (p (tasks tid)).2.2 tid)).1,
      (SimpleExecutor.run p fuel (Function.update tasks tid (p (tasks tid)).1)
          (rest ++ List.replicate (p (tasks tid)).2.2 tid)).2) := rfl

/-- Run of a single countdown task: polled once per value `k, k-1, …, 0`,
`Pending` everywhere except the final `Ready`, and the loop drains the
queue within `fuel + 1` iterations whenever `k ≤ fuel`. -/
theorem countdown_run_trace (k : Nat) : ∀ (fuel : Nat) (tasks : Nat → Nat),
    k ≤ fuel → tasks 0 = k →
    (SimpleExecutor.run CountDown.poll (fuel + 1) tasks [0]).1 =
      ((List.range k).map (fun i => (0, k - i, Poll.pending))) ++ [(0, 0, Poll.ready)] ∧
    (SimpleExecutor.run CountDown.poll (fuel + 1) tasks [0]).2.2 = [] := by
  induction k with
  | zero =>
    intro fuel tasks _ h0
    rw [SimpleExecutor.run_cons, h0]
    simp [CountDown.poll, SimpleExecutor.run_nil]
  | succ k ih =>
    intro fuel tasks hf h0
    obtain ⟨f, rfl⟩ : ∃ f, fuel = f + 1 := ⟨fuel - 1, by omega⟩
    rw [SimpleExecutor.run_cons, h0]
    have hpoll : CountDown.poll (k + 1) = (k, Poll.pending, 1) := by
      simp [CountDown.poll]
    have hup : Function.update tasks 0 (CountDown.poll (k + 1)).1 0 = k := by
      rw [hpoll, Function.update_same]
    have hm := ih f (Function.update tasks 0 (CountDown.poll (k + 1)).1) (by omega) hup
    rw [hpoll] at hm ⊢
    have hrange : (List.range (k + 1)).map (fun i => ((0 : Nat), k + 1 - i, Poll.pending)) =
        (0, k + 1, Poll.pending) :: (List.range k).map (fun i => ((0 : Nat), k - i, Poll.pending)) := by
      rw [List.range_succ_eq_map, List.map_cons, List.map_map]
      simp [Function.comp, Nat.succ_sub_succ]
    refine ⟨?_, ?_⟩
    · simp only [List.replicate, List.nil_append]
      rw [hrange]
      simpa using hm.1
    · simpa using hm.2

/-- C1: spawning one countdown computation with starting count `n` and
running the executor causes `poll` to be called exactly `n + 1` times, the
calls observing the values `n, n-1, …, 0` in that order; every call but the
last returns `Pending`, the last returns `Ready`, and the run loop then
terminates on an empty queue (any fuel of at least `n + 1` iterations
suffices and the queue is drained). -/
theorem countdown_polls_each_value (n fuel : Nat) (h : n + 1 ≤ fuel) :
    (SimpleExecutor.run CountDown.poll fuel (fun _ => n) [0]).1 =
      ((List.range n).map (fun i => (0, n - i, Poll.pending))) ++ [(0, 0, Poll.ready)] ∧
    (SimpleExecutor.run CountDown.poll fuel (fun _ => n) [0]).1.length = n + 1 ∧
    (SimpleExecutor.run CountDown.poll fuel (fun _ => n) [0]).2.2 = [] := by
  obtain ⟨f, rfl⟩ : ∃ f, fuel = f + 1 := ⟨fuel - 1, by omega⟩
  obtain ⟨h1, h2⟩ := countdown_run_trace n f (fun _ => n) (by omega) rfl
  refine ⟨h1, ?_, h2⟩
  rw [h1]
  simp

/-- Witness for C1 at `n = 2`, `fuel = 3`. -/
theorem countdown_polls_each_value_witness :
    (SimpleExecutor.run CountDown.poll 3 (fun _ => 2) [0]).1 =
      ((List.range 2).map (fun i => (0, 2 - i, Poll.pending))) ++ [(0, 0, Poll.ready)] ∧
    (SimpleExecutor.run CountDown.poll 3 (fun _ => 2) [0]).1.length = 2 + 1 ∧
    (SimpleExecutor.run CountDown.poll 3 (fun _ => 2) [0]).2.2 = [] :=
  countdown_polls_each_value 2 3 (by decide)

/-- C9: spawning two countdown computations with counts `3` (task 0) and
`2` (task 1) and running the executor performs exactly seven polls in total,
four on task 0 and three on task 1, alternating between the tasks; both
tasks reach `Ready` exactly once and the run terminates with an empty
queue. -/
theorem two_countdowns_seven_polls :
    (SimpleExecutor.run CountDown.poll 7 (fun tid => if tid = 0 then 3 else 2) [0, 1]).1 =
      [(0, 3, Poll.pending), (1, 2, Poll.pending), (0, 2, Poll.pending),
       (1, 1, Poll.pending), (0, 1, Poll.pending), (1, 0, Poll.ready),
       (0, 0, Poll.ready)] ∧
    (SimpleExecutor.run CountDown.poll 7 (fun tid => if tid = 0 then 3 else 2) [0, 1]).1.length = 7 ∧
    pollCount 0 ((SimpleExecutor.run CountDown.poll 7 (fun tid => if tid = 0 then 3 else 2) [0, 1]).1) = 4 ∧
    pollCount 1 ((SimpleExecutor.run CountDown.poll 7 (fun tid => if tid = 0 then 3 else 2) [0, 1]).1) = 3 ∧
    readyCount 0 ((SimpleExecutor.run CountDown.poll 7 (fun tid => if tid = 0 then 3 else 2) [0, 1]).1) = 1 ∧
    readyCount 1 ((SimpleExecutor.run CountDown.poll 7 (fun tid => if tid = 0 then 3 else 2) [0, 1]).1) = 1 ∧
    (SimpleExecutor.run CountDown.poll 7 (fun tid => if tid = 0 then 3 else 2) [0, 1]).2.2 = [] := by
  decide

/-- C2: one iteration of the run loop pops the head task, polls it once,
and the continuation queue is exactly the popped queue's tail plus the
pushes the future itself made via its waker during the poll — with zero
waker invocations the task is not re-queued, whether the poll returned
`Ready` (the executor drops its reference and moves on) or `Pending` (the
executor performs no further action); and `run` returns, with no events,
exactly when a pop observes the queue empty. -/
theorem run_loop_contract {σ : Type} (p : σ → σ × Poll × Nat)
    (fuel : Nat) (tasks : Nat → σ) (tid : Nat) (rest : List Nat)
    (s' : σ) (res : Poll) (w : Nat) (h : p (tasks tid) = (s', res, w)) :
    SimpleExecutor.run p (fuel + 1) tasks (tid :: rest) =
      ((tid, tasks tid, res) ::
        (SimpleExecutor.run p fuel (Function.update tasks tid s')
          (rest ++ List.replicate w tid)).1,
       (SimpleExecutor.run p fuel (Function.update tasks tid s')
          (rest ++ List.replicate w tid)).2) ∧
    (w = 0 →
      SimpleExecutor.run p (fuel + 1) tasks (tid :: rest) =
        ((tid, tasks tid, res) ::
          (SimpleExecutor.run p fuel (Function.update tasks tid s') rest).1,
         (SimpleExecutor.run p fuel (Function.update tasks tid s') rest).2)) ∧
    SimpleExecutor.run p fuel tasks [] = ([], tasks, []) := by
  refine ⟨?_, ?_, SimpleExecutor.run_nil p fuel tasks⟩
  · rw [SimpleExecutor.run_cons, h]
  · rintro rfl
    rw [SimpleExecutor.run_cons, h]
    simp

/-- Witness for C2: a just-finished countdown (state 0) popped from a
queue holding only itself, with fuel 1 remaining. -/
theorem run_loop_contract_witness :
    SimpleExecutor.run CountDown.poll 2 (fun _ => 0) [0] =
      ((0, (fun _ => (0 : Nat)) 0, Poll.ready) ::
        (SimpleExecutor.run CountDown.poll 1 (Function.update (fun _ => 0) 0 0)
          ([] ++ List.replicate 0 0)).1,
       (SimpleExecutor.run CountDown.poll 1 (Function.update (fun _ => 0) 0 0)
          ([] ++ List.replicate 0 0)).2) ∧
    ((0 : Nat) = 0 →
      SimpleExecutor.run CountDown.poll 2 (fun _ => 0) [0] =
        ((0, (fun _ => (0 : Nat)) 0, Poll.ready) ::
          (SimpleExecutor.run CountDown.poll 1 (Function.update (fun _ => 0) 0 0) []).1,
         (SimpleExecutor.run CountDown.poll 1 (Function.update (fun _ => 0) 0 0) []).2)) ∧
    SimpleExecutor.run CountDown.poll 1 (fun _ => (0 : Nat)) [] = ([], fun _ => 0, []) :=
  run_loop_contract CountDown.poll 1 (fun _ => 0) 0 [] 0 Poll.ready 0 (by decide)

/-- The popped prefix and the remaining queue always recompose to the
initial contents followed by the pushed values, in push order. -/
theorem TaskQueue.runOps_fifo {α : Type} :
    ∀ (ops : List (QueueOp α)) (init : List α),
      (TaskQueue.runOps ops init).1 ++ (TaskQueue.runOps ops init).2 =
        init ++ pushedOf ops := by
  intro ops
  induction ops with
  | nil => intro init; simp [TaskQueue.runOps, pushedOf]
  | cons op ops ih =>
    intro init
    cases op with
    | push x =>
      simp only [TaskQueue.runOps, pushedOf, ih, TaskQueue.push]
      simp
    | pop =>
      cases init with
      | nil => simpa [TaskQueue.runOps, TaskQueue.pop, pushedOf] using ih []
      | cons y ys =>
        simp only [TaskQueue.runOps, TaskQueue.pop, pushedOf]
        simpa using ih ys

/-- C5: the task queue is an exact FIFO.  `push` always succeeds and
appends the given reference at the tail, performing no deduplication (a
reference already present is appended again); `pop` returns the head and
the rest when the queue is non-empty and `none` when it is empty; and over
every sequence of pushes and pops, the dequeued elements followed by the
remaining queue equal the initial contents followed by the pushed values in
insertion order — dequeue order is insertion order. -/
theorem taskQueue_fifo {α : Type} (ops : List (QueueOp α)) (init q : List α) (x : α) :
    (TaskQueue.runOps ops init).1 ++ (TaskQueue.runOps ops init).2 =
      init ++ pushedOf ops ∧
    TaskQueue.push q x = q ++ [x] ∧
    TaskQueue.pop (x :: q) = some (x, q) ∧
    TaskQueue.pop ([] : List α) = none := by
  exact ⟨TaskQueue.runOps_fifo ops init, rfl, rfl, rfl⟩

/-- One loop iteration is deterministic. -/
theorem execStep_det {σ : Type} {p : σ → σ × Poll × Nat}
    {c c₁ c₂ : (Nat → σ) × List Nat} {e₁ e₂ : Nat × σ × Poll}
    (h₁ : ExecStep p c e₁ c₁) (h₂ : ExecStep p c e₂ c₂) : e₁ = e₂ ∧ c₁ = c₂ := by
  cases h₁
  cases h₂
  exact ⟨rfl, rfl⟩

/-- A complete run is deterministic: same start, same trace and same final
state. -/
theorem execRun_det {σ : Type} {p : σ → σ × Poll × Nat}
    {c c₁ c₂ : (Nat → σ) × List Nat} {tr₁ tr₂ : List (Nat × σ × Poll)}
    (h₁ : ExecRun p c tr₁ c₁) (h₂ : ExecRun p c tr₂ c₂) :
    tr₁ = tr₂ ∧ c₁ = c₂ := by
  induction h₁ generalizing tr₂ c₂ with
  | done tasks =>
    cases h₂ with
    | done => exact ⟨rfl, rfl⟩
    | step hs _ => cases hs
  | step hs hr ih =>
    cases h₂ with
    | done => cases hs
    | step hs₂ hr₂ =>
      obtain ⟨he, hc⟩ := execStep_det hs hs₂
      subst he
      subst hc
      obtain ⟨ht, hc'⟩ := ih hr₂
      exact ⟨by rw [ht], hc'⟩

/-- Two countdown tasks with positive counts, queued as `[0, 1]`, are
polled once each — task 0 first, then task 1 — and the loop is back at
queue `[0, 1]` with both counts decremented. -/
theorem countdown_pair_step (a b fuel : Nat) (tasks : Nat → Nat)
    (h0 : tasks 0 = a + 1) (h1 : tasks 1 = b + 1) :
    SimpleExecutor.run CountDown.poll (fuel + 2) tasks [0, 1] =
      ((0, a + 1, Poll.pending) :: (1, b + 1, Poll.pending) ::
        (SimpleExecutor.run CountDown.poll fuel
          (Function.update (Function.update tasks 0 a) 1 b) [0, 1]).1,
       (SimpleExecutor.run CountDown.poll fuel
          (Function.update (Function.update tasks 0 a) 1 b) [0, 1]).2) := by
  have hp0 : CountDown.poll (a + 1) = (a, Poll.pending, 1) := by simp [CountDown.poll]
  have hp1 : CountDown.poll (b + 1) = (b, Poll.pending, 1) := by simp [CountDown.poll]
  have hu1 : Function.update tasks 0 a 1 = b + 1 := by
    rw [Function.update_noteq (by decide)]
    exact h1
  rw [show fuel + 2 = fuel + 1 + 1 from rfl, SimpleExecutor.run_cons, h0, hp0]
  simp only [List.replicate, List.cons_append, List.nil_append]
  rw [SimpleExecutor.run_cons, hu1, hp1]
  simp

/-- C10: the single-threaded run loop is deterministic — from any
configuration, two complete runs produce the same event trace and the same
final tasks-and-queue state — and two self-re-waking countdown tasks
spawned in order 0 then 1 are polled in strict alternation: one round of
the loop on queue `[0, 1]` polls task 0 then task 1 and returns to queue
`[0, 1]` with both counts decremented, and the concrete run with counts 3
and 2 polls the tasks in the order `0, 1, 0, 1, 0, 1, 0` (task 1 completes
first, after which task 0 runs alone). -/
theorem run_deterministic_alternation {σ : Type} (p : σ → σ × Poll × Nat)
    (c c₁ c₂ : (Nat → σ) × List Nat) (tr₁ tr₂ : List (Nat × σ × Poll))
    (h₁ : ExecRun p c tr₁ c₁) (h₂ : ExecRun p c tr₂ c₂)
    (a b fuel : Nat) (tasks : Nat → Nat)
    (ha : tasks 0 = a + 1) (hb : tasks 1 = b + 1) :
    (tr₁ = tr₂ ∧ c₁ = c₂) ∧
    SimpleExecutor.run CountDown.poll (fuel + 2) tasks [0, 1] =
      ((0, a + 1, Poll.pending) :: (1, b + 1, Poll.pending) ::
        (SimpleExecutor.run CountDown.poll fuel
          (Function.update (Function.update tasks 0 a) 1 b) [0, 1]).1,
       (SimpleExecutor.run CountDown.poll fuel
          (Function.update (Function.update tasks 0 a) 1 b) [0, 1]).2) ∧
    (SimpleExecutor.run CountDown.poll 7 (fun tid => if tid = 0 then 3 else 2) [0, 1]).1.map
      (fun e => e.1) = [0, 1, 0, 1, 0, 1, 0] :=
  ⟨execRun_det h₁ h₂, countdown_pair_step a b fuel tasks ha hb, by decide⟩

/-- Witness for C10: the empty run from an empty queue, and the pair step
at counts 3 and 2. -/
theorem run_deterministic_alternation_witness :
    (([] : List (Nat × Nat × Poll)) = [] ∧
      ((fun _ => 0, []) : (Nat → Nat) × List Nat) = ((fun _ => 0, []) : (Nat → Nat) × List Nat)) ∧
    SimpleExecutor.run CountDown.poll (5 + 2) (fun tid => if tid = 0 then 3 else 2) [0, 1] =
      ((0, 2 + 1, Poll.pending) :: (1, 1 + 1, Poll.pending) ::
        (SimpleExecutor.run CountDown.poll 5
          (Function.update (Function.update (fun tid => if tid = 0 then 3 else 2) 0 2) 1 1) [0, 1]).1,
       (SimpleExecutor.run CountDown.poll 5
          (Function.update (Function.update (fun tid => if tid = 0 then 3 else 2) 0 2) 1 1) [0, 1]).2) ∧
    (SimpleExecutor.run CountDown.poll 7 (fun tid => if tid = 0 then 3 else 2) [0, 1]).1.map
      (fun e => e.1) = [0, 1, 0, 1, 0, 1, 0] :=
  run_deterministic_alternation CountDown.poll (fun _ => 0, []) (fun _ => 0, []) (fun _ => 0, [])
    [] [] (ExecRun.done _) (ExecRun.done _) 2 1 5 (fun tid => if tid = 0 then 3 else 2)
    (by decide) (by decide)

/-- Run of the double-waking task: after its poll under the first duplicate
queue entry returns `Ready` (the task is done), the leftover duplicate entry
makes the loop pop it and call poll on it again — the call happens with no
guard, no panic and no structural prevention, and the run simply continues
to normal termination.  The trace shows the third poll, delivered after the
task already reported `Ready`. -/
theorem poll_after_done :
    (SimpleExecutor.run doubleWake.poll 3 (fun _ => 0) [0]).1 =
      [(0, 0, Poll.pending), (0, 1, Poll.ready), (0, 2, Poll.ready)] ∧
    readyCount 0 ((SimpleExecutor.run doubleWake.poll 3 (fun _ => 0) [0]).1) = 2 ∧
    pollCount 0 ((SimpleExecutor.run doubleWake.poll 3 (fun _ => 0) [0]).1) = 3 ∧
    (SimpleExecutor.run doubleWake.poll 3 (fun _ => 0) [0]).2.2 = [] := by
  decide

/-- Counterexample to C7 as stated: one spawned computation that invokes
its wake handle zero times — a bounded number — over its lifetime.  The run
terminates (the queue is drained after the single poll), but the
computation is polled exactly once, returns `Pending`, and never returns
`Ready`: "every spawned computation returns Done exactly once" fails. -/
theorem bounded_wakes_without_done :
    (SimpleExecutor.run neverWake.poll 1 (fun _ => ()) [0]).1 = [(0, (), Poll.pending)] ∧
    readyCount 0 ((SimpleExecutor.run neverWake.poll 1 (fun _ => ()) [0]).1) = 0 ∧
    (SimpleExecutor.run neverWake.poll 1 (fun _ => ()) [0]).2.2 = [] := by
  decide

/-- Unfolding of the fuel bound on a non-empty queue. -/
theorem queueMeasure_cons {σ : Type} (μ : σ → Nat) (tasks : Nat → σ)
    (t : Nat) (q : List Nat) :
    queueMeasure μ tasks (t :: q) = μ (tasks t) + 1 + queueMeasure μ tasks q := by
  simp [queueMeasure]

/-- The fuel bound is additive over queue concatenation. -/
theorem queueMeasure_append {σ : Type} (μ : σ → Nat) (tasks : Nat → σ)
    (q₁ q₂ : List Nat) :
    queueMeasure μ tasks (q₁ ++ q₂) = queueMeasure μ tasks q₁ + queueMeasure μ tasks q₂ := by
  simp [queueMeasure]

/-- Storing a new future state for a task that is not in the queue leaves
the fuel bound of the queue unchanged. -/
theorem queueMeasure_update_not_mem {σ : Type} (μ : σ → Nat) (tasks : Nat → σ)
    (tid : Nat) (v : σ) (q : List Nat) (h : tid ∉ q) :
    queueMeasure μ (Function.update tasks tid v) q = queueMeasure μ tasks q := by
  induction q with
  | nil => rfl
  | cons t ts ih =>
    have ht : t ≠ tid := fun hh => h (by simp [hh])
    rw [queueMeasure_cons, queueMeasure_cons, Function.update_noteq ht,
      ih (fun hm => h (List.mem_cons_of_mem _ hm))]

/-- C7 (amended): consider spawned computations that honour the wake
contract — whenever a poll returns `Pending` the future has invoked its
waker exactly once during that poll, a poll returning `Ready` performs no
wake, and some measure `μ` of the future's state strictly decreases on
every `Pending` poll, so that each computation invokes its wake handle only
a bounded number of times over its lifetime.  Then for every such finite
workload (a duplicate-free ready queue over the spawned tasks) the run loop
terminates — `queueMeasure` fuel suffices and the queue is drained — and
every queued computation returns `Ready` from poll exactly once during the
run, while a computation never queued returns it zero times. -/
theorem run_terminates_done_once {σ : Type} (p : σ → σ × Poll × Nat) (μ : σ → Nat)
    (hpend : ∀ s : σ, (p s).2.1 = Poll.pending → (p s).2.2 = 1 ∧ μ (p s).1 < μ s)
    (hready : ∀ s : σ, (p s).2.1 = Poll.ready → (p s).2.2 = 0)
    (fuel : Nat) (tasks : Nat → σ) (queue : List Nat)
    (hnd : queue.Nodup) (hfuel : queueMeasure μ tasks queue ≤ fuel) :
    (SimpleExecutor.run p fuel tasks queue).2.2 = [] ∧
    ∀ tid : Nat, readyCount tid (SimpleExecutor.run p fuel tasks queue).1 =
      if tid ∈ queue then 1 else 0 := by
  induction fuel generalizing tasks queue with
  | zero =>
    cases queue with
    | nil => simp [SimpleExecutor.run_nil, readyCount]
    | cons t ts =>
      exfalso
      rw [queueMeasure_cons] at hfuel
      omega
  | succ fuel ih =>
    cases queue with
    | nil => simp [SimpleExecutor.run_nil, readyCount]
    | cons tid rest =>
      have hnd' : tid ∉ rest ∧ rest.Nodup := by simpa [List.nodup_cons] using hnd
      rw [queueMeasure_cons] at hfuel
      rw [SimpleExecutor.run_cons]
      cases hres : (p (tasks tid)).2.1 with
      | ready =>
        have hw : (p (tasks tid)).2.2 = 0 := hready _ hres
        rw [hw]
        simp only [List.replicate, List.append_nil]
        have hqm : queueMeasure μ (Function.update tasks tid (p (tasks tid)).1) rest =
            queueMeasure μ tasks rest := queueMeasure_update_not_mem μ tasks tid _ rest hnd'.1
        obtain ⟨hterm, hcount⟩ := ih (Function.update tasks tid (p (tasks tid)).1) rest
          hnd'.2 (by omega)
        refine ⟨hterm, ?_⟩
        intro t
        by_cases hti : t = tid
        · subst hti
          have ht : t ∉ rest := hnd'.1
          simp [readyCount, hcount t, ht]
        · have hne : ¬(tid = t) := fun hh => hti hh.symm
          simp [readyCount, hcount t, hne, List.mem_cons, hti]
      | pending =>
        obtain ⟨hw, hdec⟩ := hpend _ hres
        rw [hw]
        have hnd2 : (rest ++ [tid]).Nodup := by
          simp [List.nodup_append, hnd'.1, hnd'.2]
        have hqm : queueMeasure μ (Function.update tasks tid (p (tasks tid)).1)
            (rest ++ List.replicate 1 tid) ≤ fuel := by
          simp only [List.replicate]
          rw [queueMeasure_append,
            queueMeasure_update_not_mem μ tasks tid _ rest hnd'.1,
            queueMeasure_cons, Function.update_same]
          have h0 : queueMeasure μ (Function.update tasks tid (p (tasks tid)).1) [] = 0 := rfl
          rw [h0]
          omega
        obtain ⟨hterm, hcount⟩ := ih (Function.update tasks tid (p (tasks tid)).1)
          (rest ++ List.replicate 1 tid) (by simpa using hnd2) hqm
        refine ⟨hterm, ?_⟩
        intro t
        have hmem : (t ∈ rest ++ List.replicate 1 tid) ↔ (t ∈ tid :: rest) := by
          simp [List.mem_append, List.mem_cons, or_comm]
        rw [readyCount, hcount t]
        have hif : (if t ∈ rest ++ List.replicate 1 tid then 1 else 0) =
            (if t ∈ tid :: rest then (1 : Nat) else 0) := by
          by_cases htm : t ∈ tid :: rest
          · rw [if_pos (hmem.mpr htm), if_pos htm]
          · rw [if_neg (fun hh => htm (hmem.mp hh)), if_neg htm]
        rw [hif]
        simp

/-- Witness for C7 (amended): one countdown task with count 2, measure the
remaining count itself, fuel 3. -/
theorem run_terminates_done_once_witness :
    (SimpleExecutor.run CountDown.poll 3 (fun _ => 2) [0]).2.2 = [] ∧
    readyCount 0 ((SimpleExecutor.run CountDown.poll 3 (fun _ => 2) [0]).1) = 1 := by
  have h := run_terminates_done_once CountDown.poll (fun s => s)
    (fun s hs => by
      by_cases h0 : s = 0
      · subst h0
        simp [CountDown.poll] at hs
      · refine ⟨by simp [CountDown.poll, h0], by simp [CountDown.poll, h0]; omega⟩)
    (fun s hs => by
      by_cases h0 : s = 0
      · simp [CountDown.poll, h0]
      · simp [CountDown.poll, h0] at hs)
    3 (fun _ => 2) [0] (by decide) (by decide)
  exact ⟨h.1, by simpa using h.2 0⟩

/-- Every ledger operation preserves the reference-count pairing. -/
theorem ArcOp.apply_inv {op : ArcOp} {s s1 : ArcLedger} (hinv : s.inv)
    (h : ArcOp.apply op s = some s1) : s1.inv := by
  unfold ArcLedger.inv at hinv
  cases op with
  | clone =>
    by_cases hh : s.handles = 0 <;> simp [ArcOp.apply, clone_fn, hh] at h
    subst h
    simp [ArcLedger.inv]
    omega
  | wake =>
    by_cases hh : s.handles = 0 <;> simp [ArcOp.apply, wake_fn, TaskQueue.push, hh] at h
    subst h
    simp [ArcLedger.inv, List.count_append]
    omega
  | wakeByRef =>
    by_cases hh : s.handles = 0 <;> simp [ArcOp.apply, wake_by_ref_fn, TaskQueue.push, hh] at h
    subst h
    simp [ArcLedger.inv, List.count_append]
    omega
  | dropHandle =>
    by_cases hh : s.handles = 0 <;> simp [ArcOp.apply, drop_fn, hh] at h
    subst h
    simp [ArcLedger.inv]
    omega
  | popTask =>
    cases hq : s.queue with
    | nil => simp [ArcOp.apply, ArcLedger.popTask, hq] at h
    | cons b rest =>
      rw [hq] at hinv
      cases b with
      | false =>
        simp [List.count_cons] at hinv
        simp [ArcOp.apply, ArcLedger.popTask, hq] at h
        subst h
        simp [ArcLedger.inv]
        omega
      | true =>
        simp [List.count_cons] at hinv
        simp [ArcOp.apply, ArcLedger.popTask, hq] at h
        subst h
        simp [ArcLedger.inv]
        omega
  | cloneLocal =>
    by_cases hh : s.locals = 0 <;> simp [ArcOp.apply, ArcLedger.cloneLocal, hh] at h
    subst h
    simp [ArcLedger.inv]
    omega
  | createWaker =>
    by_cases hh : s.locals = 0 <;> simp [ArcOp.apply, create_waker, hh] at h
    subst h
    simp [ArcLedger.inv]
    omega
  | dropLocal =>
    by_cases hh : s.locals = 0 <;> simp [ArcOp.apply, ArcLedger.dropLocal, hh] at h
    subst h
    simp [ArcLedger.inv]
    omega
  | pushOther =>
    simp [ArcOp.apply, ArcLedger.pushOther, TaskQueue.push] at h
    subst h
    simp [ArcLedger.inv, List.count_append]
    omega

/-- Once the strong count is zero (the task destroyed), no operation can
make it nonzero again: under the pairing invariant no share exists, so
every share-consuming operation is impossible and the remaining ones
(popping or pushing foreign queue entries) leave the count at zero. -/
theorem ArcOp.apply_rc_zero {op : ArcOp} {s s1 : ArcLedger} (hinv : s.inv)
    (h0 : s.rc = 0) (h : ArcOp.apply op s = some s1) : s1.rc = 0 := by
  have hz : s.queue.count true = 0 ∧ s.handles = 0 ∧ s.locals = 0 := by
    unfold ArcLedger.inv at hinv
    omega
  cases op with
  | clone => simp [ArcOp.apply, clone_fn, hz.2.1] at h
  | wake => simp [ArcOp.apply, wake_fn, hz.2.1] at h
  | wakeByRef => simp [ArcOp.apply, wake_by_ref_fn, hz.2.1] at h
  | dropHandle => simp [ArcOp.apply, drop_fn, hz.2.1] at h
  | popTask =>
    cases hq : s.queue with
    | nil => simp [ArcOp.apply, ArcLedger.popTask, hq] at h
    | cons b rest =>
      cases b with
      | true =>
        exfalso
        have : s.queue.count true ≥ 1 := by
          rw [hq]
          simp [List.count_cons]
        omega
      | false =>
        simp [ArcOp.apply, ArcLedger.popTask, hq] at h
        subst h
        exact h0
  | cloneLocal => simp [ArcOp.apply, ArcLedger.cloneLocal, hz.2.2] at h
  | createWaker => simp [ArcOp.apply, create_waker, hz.2.2] at h
  | dropLocal => simp [ArcOp.apply, ArcLedger.dropLocal, hz.2.2] at h
  | pushOther =>
    simp [ArcOp.apply, ArcLedger.pushOther] at h
    subst h
    exact h0

/-- Inversion of one step of `ArcLedger.runOps`. -/
theorem ArcLedger.runOps_cons_inv {op : ArcOp} {ops : List ArcOp} {s : ArcLedger}
    {l : List ArcLedger} (h : ArcLedger.runOps (op :: ops) s = some l) :
    ∃ s1 l2, ArcOp.apply op s = some s1 ∧ ArcLedger.runOps ops s1 = some l2 ∧
      l = s1 :: l2 := by
  rw [ArcLedger.runOps] at h
  split at h
  · cases h
  · rename_i s1 happ
    split at h
    · cases h
    · rename_i l2 hrec
      injection h with h
      exact ⟨s1, l2, happ, hrec, h.symm⟩

/-- Along any valid operation sequence started at a destroyed task (count
zero, under the invariant), the count stays zero in every state. -/
theorem ArcLedger.runOps_rc_zero :
    ∀ (ops : List ArcOp) (s : ArcLedger) (l : List ArcLedger),
      s.inv → s.rc = 0 → ArcLedger.runOps ops s = some l → ∀ x ∈ l, x.rc = 0 := by
  intro ops
  induction ops with
  | nil =>
    intro s l _ _ h
    simp [ArcLedger.runOps] at h
    subst h
    simp
  | cons op ops ih =>
    intro s l hinv h0 h
    obtain ⟨s1, l2, happ, hrun, rfl⟩ := ArcLedger.runOps_cons_inv h
    have hinv1 := ArcOp.apply_inv hinv happ
    have h01 := ArcOp.apply_rc_zero hinv h0 happ
    intro x hx
    rcases List.mem_cons.mp hx with hx1 | hx2
    · rw [hx1]; exact h01
    · exact ih s1 l2 hinv1 h01 hrun x hx2

/-- The last element of a nonempty chain is the default or a member. -/
theorem getLastD_eq_or_mem {α : Type} :
    ∀ (l : List α) (a : α), l.getLastD a = a ∨ l.getLastD a ∈ l := by
  intro l
  induction l with
  | nil => intro a; left; rfl
  | cons b bs ih =>
    intro a
    rw [List.getLastD_cons]
    rcases ih b with h | h
    · right; rw [h]; exact List.mem_cons_self b bs
    · right; exact List.mem_cons_of_mem b h

/-- C6: reference-count correctness.  Start from any ledger state in which
the strong count equals the number of outstanding shares (queue entries,
live waker aliases, local strong references).  Along any sequence of
operations — vtable `clone`/`wake`/`wake_by_ref`/`drop` invocations and
executor-side pops, clones and drops, in any order and number — the pairing
holds at every intermediate point, and the number of destruction events
(the count dropping from nonzero to zero) is exactly one if the task was
alive at the start and the count is zero at the end, and zero otherwise:
the task is destroyed exactly once, no matter how many waker clones were
made and released along the way, and a destroyed task is never
resurrected. -/
theorem refcount_pairing (ops : List ArcOp) (s0 : ArcLedger) (sts : List ArcLedger)
    (hinv : s0.inv) (hrun : ArcLedger.runOps ops s0 = some sts) :
    (∀ s ∈ sts, ArcLedger.inv s) ∧
    destroyCount (s0 :: sts) =
      if s0.rc ≠ 0 ∧ ((s0 :: sts).getLastD s0).rc = 0 then 1 else 0 := by
  induction ops generalizing s0 sts with
  | nil =>
    simp [ArcLedger.runOps] at hrun
    subst hrun
    simp [destroyCount, List.getLastD]
  | cons op ops ih =>
    obtain ⟨s1, l2, happ, hrec, rfl⟩ := ArcLedger.runOps_cons_inv hrun
    have hinv1 := ArcOp.apply_inv hinv happ
    obtain ⟨hall, hcnt⟩ := ih s1 l2 hinv1 hrec
    have hglast : (s0 :: s1 :: l2).getLastD s0 = (s1 :: l2).getLastD s1 := by
      rw [List.getLastD_cons, List.getLastD_cons, List.getLastD_cons]
    refine ⟨?_, ?_⟩
    · intro x hx
      rcases List.mem_cons.mp hx with hx1 | hx2
      · rw [hx1]; exact hinv1
      · exact hall x hx2
    · rw [destroyCount, hcnt, hglast]
      set G := (s1 :: l2).getLastD s1 with hG
      by_cases h00 : s0.rc = 0
      · have h01 : s1.rc = 0 := ArcOp.apply_rc_zero hinv h00 happ
        simp [h00, h01]
      · by_cases h11 : s1.rc = 0
        · have hzero : ∀ x ∈ l2, x.rc = 0 :=
            ArcLedger.runOps_rc_zero ops s1 l2 hinv1 h11 hrec
          have hlast0 : G.rc = 0 := by
            rw [hG, List.getLastD_cons]
            rcases getLastD_eq_or_mem l2 s1 with hg | hg
            · rw [hg]; exact h11
            · exact hzero _ hg
          simp [h00, h11, hlast0]
        · by_cases hg0 : G.rc = 0
          · simp [h00, h11, hg0]
          · simp [h00, h11, hg0]

/-- C3: the consuming wake.  Whenever the handle holds a live alias (one
share, the `unsafe` contract), `wake_fn` appends exactly one new reference
to the task at the tail of the task's bound queue, leaves every other queue
entry unchanged, consumes the handle's own share (one alias fewer), and its
net effect on the strong count is zero: the share formerly held by the
handle is now held by the new queue entry.  Local references are
untouched. -/
theorem wake_consumes_share (s : ArcLedger) (h : 1 ≤ s.handles) :
    wake_fn s = some (ArcLedger.mk s.rc (s.handles - 1) s.locals (s.queue ++ [true])) := by
  have hh : ¬s.handles = 0 := by omega
  simp [wake_fn, TaskQueue.push, hh]

/-- Witness for C3 at a ledger with one alias, one local, empty queue. -/
theorem wake_consumes_share_witness :
    wake_fn (ArcLedger.mk 2 1 1 []) =
      some (ArcLedger.mk 2 (1 - 1) 1 ([] ++ [true])) :=
  wake_consumes_share (ArcLedger.mk 2 1 1 []) (by decide)

/-- C4: the non-consuming wake.  Whenever the handle holds a live alias,
`wake_by_ref_fn` appends exactly one new reference to the task at the tail
of the task's bound queue, leaves every other queue entry unchanged, keeps
the handle's own share intact (same number of aliases, so the handle stays
usable), and increases the strong count by exactly the one share now held
by the new queue entry. -/
theorem wake_by_ref_keeps_share (s : ArcLedger) (h : 1 ≤ s.handles) :
    wake_by_ref_fn s =
      some (ArcLedger.mk (s.rc + 1) s.handles s.locals (s.queue ++ [true])) := by
  have hh : ¬s.handles = 0 := by omega
  simp [wake_by_ref_fn, TaskQueue.push, hh]
  omega

/-- Witness for C4 at a ledger with one alias, one local, empty queue. -/
theorem wake_by_ref_keeps_share_witness :
    wake_by_ref_fn (ArcLedger.mk 2 1 1 []) =
      some (ArcLedger.mk (2 + 1) 1 1 ([] ++ [true])) :=
  wake_by_ref_keeps_share (ArcLedger.mk 2 1 1 []) (by decide)

/-- Witness for C6: from a task with two shares (one alias, one local), a
clone followed by the release of both aliases and of the local reference
keeps the pairing at every state and destroys the task exactly once. -/
theorem refcount_pairing_witness :
    ArcLedger.inv (ArcLedger.mk 0 0 0 []) ∧
    destroyCount [ArcLedger.mk 2 1 1 [], ArcLedger.mk 3 2 1 [], ArcLedger.mk 2 1 1 [],
      ArcLedger.mk 1 0 1 [], ArcLedger.mk 0 0 0 []] = 1 := by
  have h := refcount_pairing
    [ArcOp.clone, ArcOp.dropHandle, ArcOp.dropHandle, ArcOp.dropLocal]
    (ArcLedger.mk 2 1 1 [])
    [ArcLedger.mk 3 2 1 [], ArcLedger.mk 2 1 1 [], ArcLedger.mk 1 0 1 [],
      ArcLedger.mk 0 0 0 []]
    (by decide) (by decide)
  refine ⟨h.1 (ArcLedger.mk 0 0 0 []) (by decide), ?_⟩
  rw [h.2]
  decide
